import Mathlib

/-!
Shallow embedding of the enrichment/scoring core of the hackveda-crawler
repository (files `src/app/crawler/parser.py` and
`src/app/enrichment/contact_extractor.py`), together with proofs settling
the frozen claims about its specification.

Python `str` values are modelled as `List Char` (all relevant inputs are
ASCII).  Python `set` values are modelled as insertion-ordered duplicate-free
lists (only membership is ever observed).  Python `dict` values are modelled
as insertion-ordered association lists with in-place overwrite, which is
exactly CPython's observable dict behaviour.  Python `float` scores are
modelled as rationals; the claims about them are interval bounds that are
insensitive to rounding because every bound is produced by an exact
`min`/`max`.
-/

set_option maxRecDepth 8000

namespace HackvedaCrawler

/-- Convert a Lean string literal to the `List Char` model of a Python `str`. -/
def strL (s : String) : List Char := s.toList

/-- Python regex `\w` / `str.isalnum`-style word character (ASCII model). -/
def isWordChar (c : Char) : Bool :=
  ('a' ≤ c && c ≤ 'z') || ('A' ≤ c && c ≤ 'Z') || ('0' ≤ c && c ≤ '9') || c = '_'

/-- Python regex `\s`: the six ASCII whitespace characters. -/
def isSpaceChar (c : Char) : Bool :=
  c = ' ' || c = '\t' || c = '\n' || c = '\r' || c = '\x0b' || c = '\x0c'

/-- Python regex `\d` (ASCII model). -/
def isDigitChar (c : Char) : Bool := '0' ≤ c && c ≤ '9'

/-- Regex class `[A-Za-z]`. -/
def isAsciiLetter (c : Char) : Bool := ('a' ≤ c && c ≤ 'z') || ('A' ≤ c && c ≤ 'Z')

/-- Regex class `[A-Za-z0-9]`. -/
def isAsciiAlphaNum (c : Char) : Bool := isAsciiLetter c || isDigitChar c

/-- Python `str.strip()`: remove leading and trailing whitespace. -/
def pythonStrip (s : List Char) : List Char :=
  ((s.dropWhile isSpaceChar).reverse.dropWhile isSpaceChar).reverse

/-- Python `str.lower()` (ASCII model). -/
def lowerStr (s : List Char) : List Char := s.map Char.toLower

/-- Python `needle in hay` substring test. -/
def containsSub (needle : List Char) : List Char → Bool
  | [] => needle.isEmpty
  | c :: rest => needle.isPrefixOf (c :: rest) || containsSub needle rest

/-- Python `set.add`: sets are modelled as insertion-ordered duplicate-free lists. -/
def setInsert (xs : List (List Char)) (x : List Char) : List (List Char) :=
  if x ∈ xs then xs else xs ++ [x]

/-- Python `set.update` / set union. -/
def setUnion (xs ys : List (List Char)) : List (List Char) := ys.foldl setInsert xs

/-- Python `d[k] = v` on an insertion-ordered dict: overwrite the (unique)
existing entry in place when the key is present, append otherwise. -/
def dictSet {β : Type} : List (List Char × β) → List Char → β → List (List Char × β)
  | [], k, v => [(k, v)]
  | kv :: rest, k, v => if kv.1 = k then (k, v) :: rest else kv :: dictSet rest k v

/-- Python `d.get(k)` as an `Option`. -/
def dictLookup {β : Type} (d : List (List Char × β)) (k : List Char) : Option β :=
  (d.find? (fun kv => kv.1 = k)).map Prod.snd

/-! ### A small backtracking regular-expression engine

The source drives all extraction through Python `re` patterns.  We embed each
pattern as an abstract-syntax term and interpret it with a backtracking
matcher that follows Python's leftmost, greedy-with-backtracking semantics.
`rep a lo hi` is the bounded greedy quantifier (`hi = none` means unbounded);
`wb` is the word-boundary assertion `\b`; `lit []` serves as epsilon. -/

inductive RE where
  | cls : (Char → Bool) → RE
  | lit : List Char → RE
  | cat : RE → RE → RE
  | alt : RE → RE → RE
  | rep : RE → Nat → Option Nat → RE
  | wb : RE

/-- Size measure used only to compute a sufficient fuel value. -/
def reSize : RE → Nat
  | .cls _ => 1
  | .lit l => l.length + 1
  | .cat a b => reSize a + reSize b + 1
  | .alt a b => reSize a + reSize b + 1
  | .rep a lo _ => reSize a + lo + 1
  | .wb => 1

/-- The character preceding the current position after consuming `l`
(needed by the `\b` assertion). -/
def lastCharOr (l : List Char) (prev : Option Char) : Option Char :=
  match l.getLast? with
  | some c => some c
  | none => prev

/-- Backtracking matcher.  `reMatch fuel re prev s` returns every way `re` can
match a prefix of `s`, in Python's backtracking priority order (greedy
first); each outcome is the pair of the character just before the remaining
input and the remaining input.  `prev` is the character before `s`, used by
`\b`.  The fuel only bounds recursion depth; `reFuel` below always provides
enough for the patterns and inputs evaluated concretely. -/
def reMatch : Nat → RE → Option Char → List Char → List (Option Char × List Char)
  | 0, _, _, _ => []
  | _ + 1, .cls p, _, s =>
    match s with
    | [] => []
    | c :: rest => if p c then [(some c, rest)] else []
  | _ + 1, .lit l, prev, s =>
    if l.isPrefixOf s then [(lastCharOr l prev, s.drop l.length)] else []
  | fuel + 1, .cat a b, prev, s =>
    (reMatch fuel a prev s).flatMap (fun pr => reMatch fuel b pr.1 pr.2)
  | fuel + 1, .alt a b, prev, s =>
    reMatch fuel a prev s ++ reMatch fuel b prev s
  | fuel + 1, .rep a lo hi, prev, s =>
    let more :=
      if hi = some 0 then []
      else
        (reMatch fuel a prev s).flatMap (fun pr =>
          if pr.2.length < s.length then
            reMatch fuel (.rep a (lo - 1) (hi.map (fun n => n - 1))) pr.1 pr.2
          else [])
    if lo = 0 then more ++ [(prev, s)] else more
  | _ + 1, .wb, prev, s =>
    let wl := match prev with | some c => isWordChar c | none => false
    let wr := match s with | c :: _ => isWordChar c | [] => false
    if wl != wr then [(prev, s)] else []

/-- Fuel sufficient for `reMatch` on the given pattern and input. -/
def reFuel (re : RE) (s : List Char) : Nat := (reSize re + 1) * (s.length + 2)

/-- Python `re.match(pattern, s)` viewed as a Bool (a match anchored at the
start, not necessarily covering all of `s`). -/
def reMatchStart (re : RE) (s : List Char) : Bool :=
  !(reMatch (reFuel re s) re none s).isEmpty

/-- Python `re.match(r'^pat$', s)`: some backtracking path consumes all of `s`.
(Python's `$` would also accept a single trailing newline; no modelled input
contains one.) -/
def reMatchFull (re : RE) (s : List Char) : Bool :=
  (reMatch (reFuel re s) re none s).any (fun pr => pr.2.isEmpty)

/-- One step of `re.findall`: at the current position take the first
backtracking match if any.  After a match, scanning resumes at its end; on
failure (or an empty match) scanning advances one character. -/
def reFindAllGo : Nat → RE → Option Char → List Char → List (List Char)
  | 0, _, _, _ => []
  | gas + 1, re, prev, s =>
    match reMatch (reFuel re s) re prev s with
    | pr :: _ =>
      let m := s.take (s.length - pr.2.length)
      if m.isEmpty then
        match s with
        | [] => [m]
        | c :: rest => m :: reFindAllGo gas re (some c) rest
      else m :: reFindAllGo gas re pr.1 pr.2
    | [] =>
      match s with
      | [] => []
      | _ :: rest =>
        reFindAllGo gas re (some (s.headD ' ')) rest

/-- Python `re.findall(pattern, s)` (patterns without capturing groups). -/
def reFindAll (re : RE) (s : List Char) : List (List Char) :=
  reFindAllGo (s.length + 1) re none s

/-- Sequencing a list of pattern pieces. -/
def RE.seq (rs : List RE) : RE := rs.foldr RE.cat (.lit [])

/-- Greedy `+`. -/
def RE.plus (a : RE) : RE := .rep a 1 none

/-- Greedy `*`. -/
def RE.star (a : RE) : RE := .rep a 0 none

/-- Greedy `?`. -/
def RE.qmark (a : RE) : RE := .rep a 0 (some 1)

/-- `{n}`. -/
def RE.exactly (a : RE) (n : Nat) : RE := .rep a n (some n)

/-- `{n,}`. -/
def RE.atLeast (a : RE) (n : Nat) : RE := .rep a n none

/-- Case-insensitive literal (for patterns compiled with `re.IGNORECASE`). -/
def RE.ilit (s : List Char) : RE :=
  RE.seq (s.map (fun c => RE.cls (fun d => d.toLower = c.toLower)))

/-- Ordered alternation over a list of branches. -/
def RE.altList : List RE → RE
  | [] => .cls (fun _ => false)
  | [x] => x
  | x :: xs => .alt x (RE.altList xs)

/-! ### Character classes and patterns from `contact_extractor.py` -/

/-- Class `[A-Za-z0-9._%+-]` (email local part). -/
def emailLocalChar (c : Char) : Bool :=
  isAsciiAlphaNum c || c = '.' || c = '_' || c = '%' || c = '+' || c = '-'

/-- Class `[A-Za-z0-9.-]` (email domain part). -/
def emailDomainChar (c : Char) : Bool := isAsciiAlphaNum c || c = '.' || c = '-'

/-- Class `[A-Z|a-z]` — the source's TLD class, which literally includes `|`. -/
def tldPipeChar (c : Char) : Bool := isAsciiLetter c || c = '|'

/-- First email pattern of `ContactExtractor.email_patterns`. -/
def emailRE1 : RE :=
  RE.seq [.wb, RE.plus (.cls emailLocalChar), .lit ['@'],
    RE.plus (.cls emailDomainChar), .lit ['.'], RE.atLeast (.cls tldPipeChar) 2, .wb]

/-- Second email pattern (obfuscated `[at]` / `[dot]` form). -/
def emailRE2 : RE :=
  RE.seq [.wb, RE.plus (.cls emailLocalChar), RE.star (.cls isSpaceChar),
    .lit ['[', 'a', 't', ']'], RE.star (.cls isSpaceChar),
    RE.plus (.cls emailDomainChar), RE.star (.cls isSpaceChar),
    .lit ['[', 'd', 'o', 't', ']'], RE.star (.cls isSpaceChar),
    RE.atLeast (.cls tldPipeChar) 2, .wb]

/-- Third email pattern (stray whitespace around `@` and `.`). -/
def emailRE3 : RE :=
  RE.seq [.wb, RE.plus (.cls emailLocalChar), RE.star (.cls isSpaceChar),
    .lit ['@'], RE.star (.cls isSpaceChar), RE.plus (.cls emailDomainChar),
    RE.star (.cls isSpaceChar), .lit ['.'], RE.star (.cls isSpaceChar),
    RE.atLeast (.cls tldPipeChar) 2, .wb]

/-- The list `ContactExtractor.email_patterns`, in source order. -/
def email_patterns : List RE := [emailRE1, emailRE2, emailRE3]

/-- The strict format check inside `_is_valid_email`
(pattern `[a-zA-Z0-9._%+-]+@[a-zA-Z0-9.-]+\.[a-zA-Z]` followed by at least
one more letter, anchored at both ends). -/
def validEmailRE : RE :=
  RE.seq [RE.plus (.cls emailLocalChar), .lit ['@'],
    RE.plus (.cls emailDomainChar), .lit ['.'], RE.atLeast (.cls isAsciiLetter) 2]

/-- Separator class `[-.\s]` used by the phone patterns. -/
def phoneSepChar (c : Char) : Bool := c = '-' || c = '.' || isSpaceChar c

/-- First phone pattern (US-style with optional country code and parens). -/
def phoneRE1 : RE :=
  RE.seq [RE.qmark (.lit ['+']), RE.qmark (.lit ['1']), RE.qmark (.cls phoneSepChar),
    RE.qmark (.lit ['(']), RE.exactly (.cls isDigitChar) 3, RE.qmark (.lit [')']),
    RE.qmark (.cls phoneSepChar), RE.exactly (.cls isDigitChar) 3,
    RE.qmark (.cls phoneSepChar), RE.exactly (.cls isDigitChar) 4]

/-- Second phone pattern (generic international grouping). -/
def phoneRE2 : RE :=
  RE.seq [RE.qmark (.lit ['+']), .rep (.cls isDigitChar) 1 (some 4),
    RE.qmark (.cls phoneSepChar), .rep (.cls isDigitChar) 1 (some 4),
    RE.qmark (.cls phoneSepChar), .rep (.cls isDigitChar) 1 (some 4),
    RE.qmark (.cls phoneSepChar), .rep (.cls isDigitChar) 1 (some 9)]

/-- The list `ContactExtractor.phone_patterns`, in source order. -/
def phone_patterns : List RE := [phoneRE1, phoneRE2]

/-- Shared scheme part `https?://(?:www\.)?` of the social patterns
(compiled with `re.IGNORECASE`, hence case-insensitive literals). -/
def socialScheme : RE :=
  RE.seq [RE.ilit (strL r"http"), RE.qmark (RE.ilit (strL r"s")),
    RE.ilit (strL r"://"), RE.qmark (RE.ilit (strL r"www."))]

/-- Class `[a-zA-Z0-9-]`. -/
def alnumDash (c : Char) : Bool := isAsciiAlphaNum c || c = '-'

/-- Class `[a-zA-Z0-9_]`. -/
def alnumUnderscore (c : Char) : Bool := isAsciiAlphaNum c || c = '_'

/-- Class `[a-zA-Z0-9.]`. -/
def alnumDot (c : Char) : Bool := isAsciiAlphaNum c || c = '.'

/-- Class `[a-zA-Z0-9_.]`. -/
def alnumUnderscoreDot (c : Char) : Bool := isAsciiAlphaNum c || c = '_' || c = '.'

/-- Class `[a-zA-Z0-9_-]`. -/
def alnumUnderscoreDash (c : Char) : Bool := isAsciiAlphaNum c || c = '_' || c = '-'

/-- `ContactExtractor.social_patterns`, an insertion-ordered dict of
platform name to URL pattern, in source order. -/
def social_patterns : List (List Char × RE) :=
  [(strL r"linkedin",
     RE.seq [socialScheme, RE.ilit (strL r"linkedin.com/"),
       .alt (RE.ilit (strL r"in")) (RE.ilit (strL r"company")),
       RE.ilit (strL r"/"), RE.plus (.cls alnumDash)]),
   (strL r"twitter",
     RE.seq [socialScheme, RE.ilit (strL r"twitter.com/"),
       RE.plus (.cls alnumUnderscore)]),
   (strL r"facebook",
     RE.seq [socialScheme, RE.ilit (strL r"facebook.com/"),
       RE.plus (.cls alnumDot)]),
   (strL r"instagram",
     RE.seq [socialScheme, RE.ilit (strL r"instagram.com/"),
       RE.plus (.cls alnumUnderscoreDot)]),
   (strL r"youtube",
     RE.seq [socialScheme, RE.ilit (strL r"youtube.com/"),
       RE.altList [RE.ilit (strL r"channel/"), RE.ilit (strL r"user/"), RE.ilit (strL r"c/")],
       RE.plus (.cls alnumUnderscoreDash)]),
   (strL r"github",
     RE.seq [socialScheme, RE.ilit (strL r"github.com/"),
       RE.plus (.cls alnumUnderscoreDash)])]

/-- Class `[A-Za-z0-9\s,.-]` of the address pattern body. -/
def addrBodyChar (c : Char) : Bool :=
  isAsciiAlphaNum c || isSpaceChar c || c = ',' || c = '.' || c = '-'

/-- Class `[A-Za-z\s]`. -/
def letterOrSpace (c : Char) : Bool := isAsciiLetter c || isSpaceChar c

/-- The street-suffix alternation of the address pattern, in source order. -/
def addrSuffixRE : RE :=
  RE.altList ([r"Street", r"St", r"Avenue", r"Ave", r"Road", r"Rd", r"Boulevard",
    r"Blvd", r"Drive", r"Dr", r"Lane", r"Ln", r"Way", r"Place", r"Pl"].map
      (fun s => RE.ilit (strL s)))

/-- The single heuristic US address pattern of `_extract_addresses`
(compiled with `re.IGNORECASE`, so the `[A-Z]` state class matches any letter). -/
def addressRE : RE :=
  RE.seq [RE.plus (.cls isDigitChar), RE.plus (.cls isSpaceChar),
    RE.plus (.cls addrBodyChar), addrSuffixRE,
    RE.star (.cls isSpaceChar), RE.qmark (.lit [',']), RE.star (.cls isSpaceChar),
    RE.plus (.cls letterOrSpace), RE.qmark (.lit [',']), RE.star (.cls isSpaceChar),
    RE.exactly (.cls isAsciiLetter) 2, RE.plus (.cls isSpaceChar),
    RE.exactly (.cls isDigitChar) 5,
    RE.qmark (.cat (.lit ['-']) (RE.exactly (.cls isDigitChar) 4))]

/-! ### `parser.py`: text normalization and analysis helpers -/

/-- `re.sub(r'\s+', ' ', text)`: collapse each maximal whitespace run to one
space.  The Bool argument records whether the previous character was part of
a run already replaced. -/
def collapseWsGo : Bool → List Char → List Char
  | _, [] => []
  | prevSpace, c :: rest =>
    if isSpaceChar c then
      if prevSpace then collapseWsGo true rest
      else ' ' :: collapseWsGo true rest
    else c :: collapseWsGo false rest

/-- Characters kept by `re.sub(r'[^\w\s\-.,!?()"]', '', text)`. -/
def keepChar (c : Char) : Bool :=
  isWordChar c || isSpaceChar c || c = '-' || c = '.' || c = ',' ||
    c = '!' || c = '?' || c = '(' || c = ')' || c = '"'

/-- Emit a completed run of `target` characters: runs of length ≥ 2 are
replaced by `repl`, a single occurrence is kept. -/
def runEmit (target : Char) (repl : List Char) (run : Nat) : List Char :=
  if run = 0 then [] else if run = 1 then [target] else repl

/-- `re.sub(r'[target]{2,}', repl, text)`: collapse each maximal run of two or
more `target` characters to `repl`. -/
def collapseRunGo (target : Char) (repl : List Char) (run : Nat) : List Char → List Char
  | [] => runEmit target repl run
  | c :: rest =>
    if c = target then collapseRunGo target repl (run + 1) rest
    else runEmit target repl run ++ c :: collapseRunGo target repl 0 rest

/-- `ResultParser._normalize_text`. -/
def normalize_text (text : List Char) : List Char :=
  if text.isEmpty then []
  else
    let t1 := collapseWsGo false (pythonStrip text)
    let t2 := t1.filter keepChar
    let t3 := collapseRunGo '.' (strL r"...") 0 t2
    let t4 := collapseRunGo '!' (strL r"!") 0 t3
    let t5 := collapseRunGo '?' (strL r"?") 0 t4
    pythonStrip t5

/-- `re.findall(r'\b\w+\b', text)`: the maximal runs of word characters.
The accumulator holds the current run, reversed. -/
def wordRunsGo (cur : List Char) : List Char → List (List Char)
  | [] => if cur.isEmpty then [] else [cur.reverse]
  | c :: rest =>
    if isWordChar c then wordRunsGo (c :: cur) rest
    else if cur.isEmpty then wordRunsGo [] rest
    else cur.reverse :: wordRunsGo [] rest

/-- `ResultParser.stop_words`. -/
def stop_words : List (List Char) :=
  ([r"the", r"a", r"an", r"and", r"or", r"but", r"in", r"on", r"at", r"to", r"for",
    r"of", r"with", r"by", r"from", r"up", r"about", r"into", r"through", r"during",
    r"before", r"after", r"above", r"below", r"between", r"among", r"is", r"are",
    r"was", r"were", r"be", r"been", r"being", r"have", r"has", r"had", r"do", r"does",
    r"did", r"will", r"would", r"could", r"should", r"may", r"might", r"must",
    r"can"]).map strL

/-- `word_freq[word] = word_freq.get(word, 0) + 1` on an insertion-ordered dict. -/
def dictIncr (d : List (List Char × Nat)) (w : List Char) : List (List Char × Nat) :=
  if d.any (fun kv => kv.1 = w) then
    d.map (fun kv => if kv.1 = w then (kv.1, kv.2 + 1) else kv)
  else d ++ [(w, 1)]

/-- `ResultParser._extract_keywords` (with its default `max_keywords = 10`);
`sorted(..., key=lambda x: x[1], reverse=True)` is Python's stable sort,
modelled by the stable `List.mergeSort`. -/
def extract_keywords (text : List Char) (max_keywords : Nat := 10) : List (List Char) :=
  if text.isEmpty then []
  else
    let words := wordRunsGo [] (lowerStr text)
    let keywords := words.filter (fun w => ¬ (w ∈ stop_words) ∧ 2 < w.length)
    let word_freq := keywords.foldl dictIncr []
    let sorted_keywords := word_freq.mergeSort (fun x y => decide (y.2 ≤ x.2))
    (sorted_keywords.take max_keywords).map Prod.fst

/-- The `domain_info` dictionary built by `ResultParser._analyze_domain`. -/
structure DomainInfo where
  quality : List Char
  tld : List Char
  is_subdomain : Bool
  main_domain : List Char
  length : Nat
  has_numbers : Bool
  has_hyphens : Bool
deriving DecidableEq

/-- `ResultParser.quality_indicators`, an insertion-ordered dict. -/
def quality_indicators : List (List Char × List (List Char)) :=
  [(strL r"high", [r".edu", r".gov", r".org"].map strL),
   (strL r"medium", [r".com", r".net"].map strL),
   (strL r"low", [r".tk", r".ml", r".ga", r".cf"].map strL)]

/-- `ResultParser._analyze_domain`.  The empty dict returned for an empty
domain is modelled as `none`. -/
def analyze_domain (domain : List Char) : Option DomainInfo :=
  if domain.isEmpty then none
  else
    let domain_lower := lowerStr domain
    let quality :=
      ((quality_indicators.find?
          (fun qi => qi.2.any (fun ext => ext.isSuffixOf domain_lower))).map
        Prod.fst).getD (strL r"medium")
    let parts := List.splitOn '.' domain
    some
      { quality := quality,
        tld := if domain.contains '.' then (parts.getLast?).getD [] else [],
        is_subdomain := decide (2 < parts.length),
        main_domain :=
          if domain.contains '.' then
            List.intercalate ['.'] (parts.drop (parts.length - 2))
          else domain,
        length := domain.length,
        has_numbers := domain.any isDigitChar,
        has_hyphens := domain.contains '-' }

/-- `ResultParser._detect_language`. -/
def detect_language (text : List Char) : List Char :=
  if text.isEmpty then strL r"unknown"
  else
    let text_lower := lowerStr text
    let english_indicators :=
      ([r"the", r"and", r"or", r"is", r"are", r"was", r"were", r"a", r"an"]).map strL
    let english_count :=
      (english_indicators.filter (fun w => containsSub w text_lower)).length
    if 2 ≤ english_count then strL r"en" else strL r"unknown"

/-! ### Data model -/

/-- `SearchResult` (`google_serp.py`): the spec's RawResult.  Timestamps play
no computational role and are modelled as integers; `response_time` (a
Python float) is modelled as a rational. -/
structure SearchResult where
  title : List Char
  url : List Char
  snippet : List Char
  rank : Int
  domain : List Char
  crawl_timestamp : Int
  response_time : ℚ
  result_metadata : List (List Char × List Char)
deriving DecidableEq

/-- `ParsedResult` (`parser.py`): the spec's EnrichedResult.  Note the last
dataclass field is named `metadata`. -/
structure ParsedResult where
  title : List Char
  url : List Char
  snippet : List Char
  rank : Int
  domain : List Char
  normalized_title : List Char
  normalized_snippet : List Char
  domain_info : Option DomainInfo
  keywords : List (List Char)
  language : List Char
  crawl_timestamp : Int
  response_time : ℚ
  source_keyword : List Char
  relevance_score : ℚ
  quality_score : ℚ
  metadata : List (List Char × List Char)
deriving DecidableEq

/-- An `<a href=...>` element as delivered by the external HTML parser:
its `href` attribute and its visible text. -/
structure Anchor where
  href : List Char
  text : List Char
deriving DecidableEq

/-- `PageContent` (`page_fetcher.py`): the spec's FetchedPage.  `html` is the
raw markup string; `anchors` models the output of the external HTML parser
(`soup.find_all('a', href=True)`) on that markup, in document order.  The
fields never read by the modelled operations (headers, fetch timestamp,
error) are omitted. -/
structure PageContent where
  url : List Char
  title : List Char
  content : List Char
  html : List Char
  anchors : List Anchor
  status_code : Int
  response_time : ℚ
deriving DecidableEq

/-- `ContactInfo` (`contact_extractor.py`): the spec's ContactSignals. -/
structure ContactInfo where
  emails : List (List Char)
  contact_pages : List (List Char)
  social_links : List (List Char × List Char)
  phone_numbers : List (List Char)
  addresses : List (List Char)
  confidence_score : ℚ
  extraction_method : List Char
  source_urls : List (List Char)
deriving DecidableEq

/-! ### `parser.py`: scoring -/

/-- The spam substrings checked by `_calculate_relevance_score`. -/
def relevanceSpamList : List (List Char) :=
  [r"spam", r"ads", r"click", r"buy"].map strL

/-- `ResultParser._calculate_relevance_score`. -/
def relevance_score (result : SearchResult) : ℚ :=
  let rank_score : ℚ := max 0 (1 - ((result.rank : ℚ) - 1) * (1 / 10))
  let c0 : ℚ := 1 / 2
  let c1 := if 30 ≤ result.title.length ∧ result.title.length ≤ 100 then c0 + 2 / 10 else c0
  let c2 := if ¬ result.snippet.isEmpty ∧ 50 < result.snippet.length then c1 + 2 / 10 else c1
  let content_score :=
    if ¬ relevanceSpamList.any (fun sp => containsSub sp (lowerStr result.domain)) then
      c2 + 1 / 10
    else c2
  min 1 ((rank_score + content_score) / 2)

/-- `domain_info.get('quality', 'medium')`: the empty dict (`none`) yields the
default `"medium"`. -/
def domainInfoQuality (di : Option DomainInfo) : List Char :=
  match di with
  | none => strL r"medium"
  | some d => d.quality

/-- `ResultParser._calculate_quality_score`. -/
def quality_score (result : SearchResult) (domain_info : Option DomainInfo) : ℚ :=
  let s0 : ℚ := 1 / 2
  let dq := domainInfoQuality domain_info
  let s1 :=
    if dq = strL r"high" then s0 + 3 / 10
    else if dq = strL r"medium" then s0 + 1 / 10
    else s0
  let s2 :=
    if result.response_time < 2 then s1 + 1 / 10
    else if 5 < result.response_time then s1 - 1 / 10
    else s1
  let s3 := if ¬ result.title.isEmpty ∧ 10 < result.title.length then s2 + 1 / 10 else s2
  let s4 := if ¬ result.snippet.isEmpty ∧ 30 < result.snippet.length then s3 + 1 / 10 else s3
  min 1 (max 0 s4)

/-! ### `parser.py`: the parsing API -/

/-- The field names of the `ParsedResult` dataclass, in declaration order. -/
def parsedResultFieldNames : List (List Char) :=
  ([r"title", r"url", r"snippet", r"rank", r"domain", r"normalized_title",
    r"normalized_snippet", r"domain_info", r"keywords", r"language",
    r"crawl_timestamp", r"response_time", r"source_keyword", r"relevance_score",
    r"quality_score", r"metadata"]).map strL

/-- The keyword-argument names used at the `ParsedResult(...)` construction
site inside `parse_search_result`, in source order. -/
def parseCallKwargNames : List (List Char) :=
  ([r"title", r"url", r"snippet", r"rank", r"domain", r"normalized_title",
    r"normalized_snippet", r"domain_info", r"keywords", r"language",
    r"crawl_timestamp", r"response_time", r"source_keyword", r"relevance_score",
    r"quality_score", r"result_metadata"]).map strL

/-- Python keyword-call semantics for a dataclass constructor without default
values: the call succeeds iff every keyword names a declared field and every
declared field receives a keyword; otherwise it raises `TypeError`. -/
def kwargsAccepted : Bool :=
  parseCallKwargNames.all (fun k => parsedResultFieldNames.contains k) &&
    parsedResultFieldNames.all (fun f => parseCallKwargNames.contains f)

/-- `ResultParser.parse_search_result`.  The body computes every enrichment
and then constructs `ParsedResult(...)` by keyword; if the keyword call is
rejected (`TypeError`), the surrounding `except` handler returns `None`. -/
def parse_search_result (result : SearchResult) : Option ParsedResult :=
  let normalized_title := normalize_text result.title
  let normalized_snippet := normalize_text result.snippet
  let keywords := extract_keywords (result.title ++ [' '] ++ result.snippet)
  let domain_info := analyze_domain result.domain
  let language := detect_language (result.title ++ [' '] ++ result.snippet)
  let rel := relevance_score result
  let qual := quality_score result domain_info
  if kwargsAccepted then
    some
      { title := result.title, url := result.url, snippet := result.snippet,
        rank := result.rank, domain := result.domain,
        normalized_title := normalized_title,
        normalized_snippet := normalized_snippet,
        domain_info := domain_info, keywords := keywords, language := language,
        crawl_timestamp := result.crawl_timestamp,
        response_time := result.response_time,
        source_keyword := (dictLookup result.result_metadata (strL r"keyword")).getD [],
        relevance_score := rel, quality_score := qual,
        metadata := result.result_metadata }
  else none

/-- The title key used by `deduplicate_results`:
`self._normalize_text(result.title).lower()`. -/
def title_key (r : ParsedResult) : List Char := lowerStr (normalize_text r.title)

/-- The loop of `ResultParser.deduplicate_results`, carrying the `seen_urls`
and `seen_titles` sets. -/
def dedupGo (seen_urls seen_titles : List (List Char)) :
    List ParsedResult → List ParsedResult
  | [] => []
  | r :: rest =>
    if r.url ∈ seen_urls then dedupGo seen_urls seen_titles rest
    else
      let tk := title_key r
      if tk ∈ seen_titles then dedupGo seen_urls seen_titles rest
      else r :: dedupGo (seen_urls ++ [r.url]) (seen_titles ++ [tk]) rest

/-- `ResultParser.deduplicate_results`. -/
def deduplicate_results (results : List ParsedResult) : List ParsedResult :=
  dedupGo [] [] results

/-- `ResultParser.filter_results`. -/
def filter_results (results : List ParsedResult)
    (min_quality_score : ℚ := 3 / 10) (min_relevance_score : ℚ := 2 / 10) :
    List ParsedResult :=
  results.filter
    (fun r => min_quality_score ≤ r.quality_score ∧ min_relevance_score ≤ r.relevance_score)

/-- Lexicographic `≤` on strings (Python `str` comparison by code point). -/
def charListLe : List Char → List Char → Bool
  | [], _ => true
  | _ :: _, [] => false
  | a :: as_, b :: bs => if a < b then true else if b < a then false else charListLe as_ bs

/-- `ResultParser.sort_results`.  Python's `sorted` is a stable sort, modelled
by `List.mergeSort`; `reverse=True` is modelled by the flipped (still stable)
comparison. -/
def sort_results (results : List ParsedResult) (sort_by : List Char) :
    List ParsedResult :=
  if sort_by = strL r"relevance" then
    results.mergeSort (fun x y => decide (y.relevance_score ≤ x.relevance_score))
  else if sort_by = strL r"quality" then
    results.mergeSort (fun x y => decide (y.quality_score ≤ x.quality_score))
  else if sort_by = strL r"rank" then
    results.mergeSort (fun x y => decide (x.rank ≤ y.rank))
  else if sort_by = strL r"domain" then
    results.mergeSort (fun x y => charListLe x.domain y.domain)
  else results

/-! ### `contact_extractor.py` -/

/-- `ContactExtractor.spam_indicators`. -/
def spam_indicators : List (List Char) :=
  ([r"noreply", r"no-reply", r"donotreply", r"do-not-reply",
    r"mailer-daemon", r"postmaster", r"webmaster",
    r"example.com", r"test.com", r"localhost",
    r"sentry.io", r"bugsnag.com"]).map strL

/-- `ContactExtractor.contact_page_paths`. -/
def contact_page_paths : List (List Char) :=
  ([r"/contact", r"/contact-us", r"/contact_us", r"/contactus",
    r"/about", r"/about-us", r"/about_us", r"/aboutus",
    r"/team", r"/staff", r"/people",
    r"/support", r"/help", r"/feedback",
    r"/info", r"/information"]).map strL

/-- `ContactExtractor._is_valid_email`. -/
def is_valid_email (email : List Char) : Bool :=
  if email.isEmpty || ¬ email.contains '@' then false
  else
    let email_lower := lowerStr email
    if spam_indicators.any (fun ind => containsSub ind email_lower) then false
    else reMatchFull validEmailRE email

/-- The scheme literal `mailto:` matched by the anchor filter in
`_extract_emails`. -/
def mailtoScheme : List Char := strL r"mailto:"

/-- `ContactExtractor._extract_emails`.  The `soup` argument is modelled by
the page's anchor list.  `soup.find_all('a', href=re.compile(r'^mailto:', re.I))`
keeps anchors whose href starts with `mailto:` case-insensitively; the inner
`href.startswith('mailto:')` re-check is case-sensitive, as in the source. -/
def extract_emails (text : List Char) (anchors : List Anchor) : List (List Char) :=
  let fromText := email_patterns.foldl (fun s p => setUnion s (reFindAll p text)) []
  let mailto_links :=
    anchors.filter (fun a => mailtoScheme.isPrefixOf (lowerStr a.href))
  let emails :=
    mailto_links.foldl
      (fun s a =>
        if mailtoScheme.isPrefixOf a.href then
          let email := (a.href.drop mailtoScheme.length).takeWhile (fun c => c ≠ '?')
          if email.contains '@' then setInsert s email else s
        else s)
      fromText
  let cleaned_emails :=
    emails.foldl
      (fun acc e =>
        let e2 := lowerStr (pythonStrip e)
        if is_valid_email e2 then acc ++ [e2] else acc)
      []
  cleaned_emails.foldl setInsert []

/-- The keyword list of `_extract_contact_pages`. -/
def contact_keywords : List (List Char) :=
  ([r"contact", r"about", r"team", r"support", r"help",
    r"info", r"reach", r"touch", r"connect"]).map strL

/-- `ContactExtractor._extract_contact_pages`.  URL resolution
(`urllib.parse.urljoin`) is an external collaborator, passed as `urljoin`. -/
def extract_contact_pages (urljoin : List Char → List Char → List Char)
    (anchors : List Anchor) (base_url : List Char) : List (List Char) :=
  anchors.foldl
    (fun s a =>
      let href := lowerStr a.href
      let text := lowerStr (pythonStrip a.text)
      if contact_keywords.any (fun k => containsSub k href || containsSub k text) then
        setInsert s (urljoin base_url a.href)
      else s)
    []

/-- `ContactExtractor._extract_social_links`: for each anchor in document
order, assign its href to the first platform whose pattern matches it at the
start (`re.match`); a later anchor matching the same platform overwrites the
entry.  This is the loop body. -/
def socialStep (d : List (List Char × List Char)) (a : Anchor) :
    List (List Char × List Char) :=
  match social_patterns.find? (fun pp => reMatchStart pp.2 a.href) with
  | some pp => dictSet d pp.1 a.href
  | none => d

/-- `ContactExtractor._extract_social_links`: fold `socialStep` over the
anchors in document order, starting from the empty dict. -/
def extract_social_links (anchors : List Anchor) : List (List Char × List Char) :=
  anchors.foldl socialStep []

/-- `re.sub(r'[^\d+]', '', phone)`: the characters surviving digit-stripping. -/
def digitOrPlus (c : Char) : Bool := isDigitChar c || c = '+'

/-- The raw regex candidates collected by `_extract_phone_numbers` before
length filtering (the `phone_numbers` set in the source). -/
def phone_candidates (text : List Char) : List (List Char) :=
  phone_patterns.foldl (fun s p => setUnion s (reFindAll p text)) []

/-- The cleaning loop body of `_extract_phone_numbers`: strip every character
other than digits and `+`; if at least 10 characters survive, keep the
original (whitespace-stripped) matched string, else drop the candidate. -/
def phoneCleanStep (acc : List (List Char)) (phone : List Char) : List (List Char) :=
  let cleaned := phone.filter digitOrPlus
  if 10 ≤ cleaned.length then acc ++ [pythonStrip phone] else acc

/-- `ContactExtractor._extract_phone_numbers`. -/
def extract_phone_numbers (text : List Char) : List (List Char) :=
  let cleaned_phones := (phone_candidates text).foldl phoneCleanStep []
  cleaned_phones.foldl setInsert []

/-- `ContactExtractor._extract_addresses`. -/
def extract_addresses (text : List Char) : List (List Char) :=
  (reFindAll addressRE text).foldl setInsert []

/-- `ContactExtractor._validate_emails`: filter through `_is_valid_email`,
then deduplicate preserving order. -/
def validate_emails (emails : List (List Char)) : List (List Char) :=
  (emails.filter is_valid_email).foldl setInsert []

/-- URL keywords granting the +0.1 bonus in `_calculate_confidence_score`. -/
def confidenceUrlKeywords : List (List Char) :=
  ([r"contact", r"about", r"team"]).map strL

/-- `ContactExtractor._calculate_confidence_score`. -/
def calculate_confidence_score (emails contact_pages : List (List Char))
    (social_links : List (List Char × List Char)) (phone_numbers : List (List Char))
    (page_content : Option PageContent) : ℚ :=
  let s0 : ℚ := 0
  let s1 :=
    if ¬ emails.isEmpty then s0 + (4 / 10) * min 1 ((emails.length : ℚ) / 3) else s0
  let s2 :=
    if ¬ contact_pages.isEmpty then s1 + (2 / 10) * min 1 ((contact_pages.length : ℚ) / 2)
    else s1
  let s3 :=
    if ¬ social_links.isEmpty then s2 + (2 / 10) * min 1 ((social_links.length : ℚ) / 3)
    else s2
  let s4 :=
    if ¬ phone_numbers.isEmpty then s3 + (1 / 10) * min 1 ((phone_numbers.length : ℚ) / 2)
    else s3
  let s5 :=
    match page_content with
    | none => s4
    | some p =>
      let url_lower := lowerStr p.url
      let a := if confidenceUrlKeywords.any (fun k => containsSub k url_lower) then s4 + 1 / 10 else s4
      if 500 < p.content.length then a + 5 / 100 else a
  min 1 s5

/-- The zero/empty `ContactInfo` returned for an absent or markup-less page. -/
def emptyContactInfo : ContactInfo :=
  { emails := [], contact_pages := [], social_links := [], phone_numbers := [],
    addresses := [], confidence_score := 0,
    extraction_method := strL r"empty_page", source_urls := [] }

/-- `ContactExtractor.extract_contacts_from_page`.  `none` models passing
`None`; a page whose `html` string is empty is also rejected by the guard
`if not page_content or not page_content.html`. -/
def extract_contacts_from_page (urljoin : List Char → List Char → List Char)
    (page_content : Option PageContent) : ContactInfo :=
  match page_content with
  | none => emptyContactInfo
  | some p =>
    if p.html.isEmpty then emptyContactInfo
    else
      let emails := extract_emails p.content p.anchors
      let contact_pages := extract_contact_pages urljoin p.anchors p.url
      let social_links := extract_social_links p.anchors
      let phone_numbers := extract_phone_numbers p.content
      let addresses := extract_addresses p.content
      let confidence :=
        calculate_confidence_score emails contact_pages social_links phone_numbers (some p)
      { emails := emails, contact_pages := contact_pages,
        social_links := social_links, phone_numbers := phone_numbers,
        addresses := addresses, confidence_score := confidence,
        extraction_method := strL r"page_analysis", source_urls := [p.url] }

/-- The mutable loop state of `extract_contacts_from_domain`. -/
structure DomainAcc where
  all_emails : List (List Char)
  all_contact_pages : List (List Char)
  all_social_links : List (List Char × List Char)
  all_phone_numbers : List (List Char)
  all_addresses : List (List Char)
  source_urls : List (List Char)
  total_confidence : ℚ
  pages_processed : Nat

/-- Initial loop state. -/
def initialDomainAcc : DomainAcc :=
  { all_emails := [], all_contact_pages := [], all_social_links := [],
    all_phone_numbers := [], all_addresses := [], source_urls := [],
    total_confidence := 0, pages_processed := 0 }

/-- One iteration of the URL loop in `extract_contacts_from_domain`.  The
external fetch collaborator is `fetch`; a fetch failure or exception is
modelled as `none` (in both cases the URL is skipped, as in the source's
`except` handler). -/
def domainStep (urljoin : List Char → List Char → List Char)
    (fetch : List Char → Option PageContent) (acc : DomainAcc) (url : List Char) :
    DomainAcc :=
  match fetch url with
  | some page_content =>
    if page_content.status_code = 200 then
      let ci := extract_contacts_from_page urljoin (some page_content)
      { all_emails := setUnion acc.all_emails ci.emails,
        all_contact_pages := setUnion acc.all_contact_pages ci.contact_pages,
        all_social_links :=
          ci.social_links.foldl (fun d kv => dictSet d kv.1 kv.2) acc.all_social_links,
        all_phone_numbers := setUnion acc.all_phone_numbers ci.phone_numbers,
        all_addresses := setUnion acc.all_addresses ci.addresses,
        source_urls := acc.source_urls ++ [url],
        total_confidence := acc.total_confidence + ci.confidence_score,
        pages_processed := acc.pages_processed + 1 }
    else acc
  | none => acc

/-- The candidate URL list built by `extract_contacts_from_domain`: homepage,
then the common contact-page paths resolved against it, truncated to
`max_pages`. -/
def candidate_urls (urljoin : List Char → List Char → List Char)
    (domain : List Char) (max_pages : Nat) : List (List Char) :=
  let base_url :=
    if (strL r"http").isPrefixOf domain then domain else strL r"https://" ++ domain
  (base_url :: contact_page_paths.map (fun path => urljoin base_url path)).take max_pages

/-- `ContactExtractor.extract_contacts_from_domain`. -/
def extract_contacts_from_domain (urljoin : List Char → List Char → List Char)
    (fetch : List Char → Option PageContent) (domain : List Char)
    (max_pages : Nat := 3) : ContactInfo :=
  let urls_to_check := candidate_urls urljoin domain max_pages
  let acc := urls_to_check.foldl (domainStep urljoin fetch) initialDomainAcc
  let avg_confidence : ℚ :=
    if 0 < acc.pages_processed then acc.total_confidence / (acc.pages_processed : ℚ)
    else 0
  { emails := validate_emails acc.all_emails,
    contact_pages := acc.all_contact_pages,
    social_links := acc.all_social_links,
    phone_numbers := acc.all_phone_numbers,
    addresses := acc.all_addresses,
    confidence_score := avg_confidence,
    extraction_method := strL r"domain_crawl",
    source_urls := acc.source_urls }

/-! ### Definitions written from the spec's words (for refinement comparisons)
and concrete instances used by counterexamples and witnesses -/

/-- Modelled from the claim's words for C7: remove exactly those items whose
url, or normalized-lowercased title, equals that of an *earlier input item*
(whether or not that earlier item was itself retained).  `prev` is the list
of all earlier input items. -/
def dedupClaimGo (prev : List ParsedResult) : List ParsedResult → List ParsedResult
  | [] => []
  | r :: rest =>
    if prev.any (fun q => q.url = r.url || title_key q = title_key r) then
      dedupClaimGo (prev ++ [r]) rest
    else r :: dedupClaimGo (prev ++ [r]) rest

/-- Modelled from the claim's words for C7 (see `dedupClaimGo`). -/
def deduplicate_results_claim (rs : List ParsedResult) : List ParsedResult :=
  dedupClaimGo [] rs

/-- The amended claim's reference procedure for C7: an item is dropped
exactly when an *earlier retained* item shares its url or its
normalized-lowercased title; `kept` is the list of retained earlier items,
in order. -/
def dedupEarlierKept (kept : List ParsedResult) : List ParsedResult → List ParsedResult
  | [] => []
  | r :: rest =>
    if kept.any (fun q => q.url = r.url || title_key q = title_key r) then
      dedupEarlierKept kept rest
    else r :: dedupEarlierKept (kept ++ [r]) rest

/-- The platform the source assigns to an anchor: the first entry of
`social_patterns` whose pattern matches the href at the start. -/
def anchorPlatform (a : Anchor) : Option (List Char) :=
  (social_patterns.find? (fun pp => reMatchStart pp.2 a.href)).map Prod.fst

/-- The href of the last anchor in the list that is assigned to `platform`
(the right-hand side of the amended claim C3). -/
def lastAssignedHref (platform : List Char) : List Anchor → Option (List Char)
  | [] => none
  | a :: rest =>
    match lastAssignedHref platform rest with
    | some h => some h
    | none => if anchorPlatform a = some platform then some a.href else none

/-- The candidate URLs whose fetch succeeds with status exactly 200: exactly
the pages `extract_contacts_from_domain` processes. -/
def processedUrls (fetch : List Char → Option PageContent) (urls : List (List Char)) :
    List (List Char) :=
  urls.filter
    (fun u =>
      match fetch u with
      | some p => decide (p.status_code = 200)
      | none => false)

/-- The per-page confidence contributed by a processed URL. -/
def pageConfidence (urljoin : List Char → List Char → List Char)
    (fetch : List Char → Option PageContent) (u : List Char) : ℚ :=
  match fetch u with
  | some p => (extract_contacts_from_page urljoin (some p)).confidence_score
  | none => 0

/-- A concrete urljoin collaborator (plain concatenation) used for closed
evaluations; the modelled claims hold for every urljoin. -/
def exJoin : List Char → List Char → List Char := fun b q => b ++ q

/-- A concrete page answering with a 201 (a 200-class status that is not 200)
and carrying an extractable email. -/
def page201 : PageContent :=
  { url := strL r"https://acme.org", title := [],
    content := strL r"Email: info@acme.org",
    html := strL r"<html><body>Email: info@acme.org</body></html>",
    anchors := [], status_code := 201, response_time := 1 }

/-- A fetch collaborator answering every URL with `page201`. -/
def fetch201 : List Char → Option PageContent := fun _ => some page201

/-- Two anchors whose hrefs both match the github social pattern. -/
def ghAnchorA : Anchor := { href := strL r"https://github.com/alice", text := [] }

/-- See `ghAnchorA`. -/
def ghAnchorB : Anchor := { href := strL r"https://github.com/bob", text := [] }

/-- A template enriched result for concrete deduplication inputs. -/
def prBase : ParsedResult :=
  { title := [], url := [], snippet := [], rank := 0, domain := [],
    normalized_title := [], normalized_snippet := [], domain_info := none,
    keywords := [], language := [], crawl_timestamp := 0, response_time := 0,
    source_keyword := [], relevance_score := 0, quality_score := 0, metadata := [] }

/-- Dedup chain input: `prA` and `prB` share a url; `prB` and `prC` share a
title; `prC` has a fresh url. -/
def prA : ParsedResult := { prBase with title := strL r"t1", url := strL r"u1" }

/-- See `prA`; its rank differs from `prA`'s while sharing its url. -/
def prB : ParsedResult := { prBase with title := strL r"t2", url := strL r"u1", rank := 3 }

/-- See `prA`. -/
def prC : ParsedResult := { prBase with title := strL r"t2", url := strL r"u2", rank := 7 }

/-! ### Theorems -/

/-- A clamped value `min 1 x` with `0 ≤ x` lies in the unit interval. -/
theorem unitIntervalMin (x : ℚ) (h : 0 ≤ x) : 0 ≤ min 1 x ∧ min 1 x ≤ 1 :=
  ⟨le_min (by norm_num) h, min_le_left _ _⟩

/-- A weighted-term accumulation step `if P then s + t else s` preserves
nonnegativity when the added term is nonnegative. -/
theorem iteStepNonneg (P : Prop) [Decidable P] (s t : ℚ) (hs : 0 ≤ s) (ht : 0 ≤ t) :
    0 ≤ if P then s + t else s := by
  split_ifs
  · exact add_nonneg hs ht
  · exact hs

/-- The confidence score is clamped into `[0,1]`. -/
theorem confidence_score_bounds (emails contact_pages : List (List Char))
    (social_links : List (List Char × List Char)) (phone_numbers : List (List Char))
    (page_content : Option PageContent) :
    0 ≤ calculate_confidence_score emails contact_pages social_links phone_numbers page_content ∧
      calculate_confidence_score emails contact_pages social_links phone_numbers page_content ≤ 1 := by
  have he : (0 : ℚ) ≤ 4 / 10 * min 1 ((emails.length : ℚ) / 3) :=
    mul_nonneg (by norm_num) (le_min (by norm_num) (by positivity))
  have hc : (0 : ℚ) ≤ 2 / 10 * min 1 ((contact_pages.length : ℚ) / 2) :=
    mul_nonneg (by norm_num) (le_min (by norm_num) (by positivity))
  have hs : (0 : ℚ) ≤ 2 / 10 * min 1 ((social_links.length : ℚ) / 3) :=
    mul_nonneg (by norm_num) (le_min (by norm_num) (by positivity))
  have hp : (0 : ℚ) ≤ 1 / 10 * min 1 ((phone_numbers.length : ℚ) / 2) :=
    mul_nonneg (by norm_num) (le_min (by norm_num) (by positivity))
  cases page_content with
  | none =>
    simp only [calculate_confidence_score]
    exact unitIntervalMin _
      (iteStepNonneg _ _ _
        (iteStepNonneg _ _ _ (iteStepNonneg _ _ _ (iteStepNonneg _ _ _ le_rfl he) hc) hs) hp)
  | some p =>
    simp only [calculate_confidence_score]
    refine unitIntervalMin _ ?_
    refine iteStepNonneg _ _ _ (iteStepNonneg _ _ _ ?_ (by norm_num)) (by norm_num)
    exact iteStepNonneg _ _ _
      (iteStepNonneg _ _ _ (iteStepNonneg _ _ _ (iteStepNonneg _ _ _ le_rfl he) hc) hs) hp

/-- The relevance score is clamped into `[0,1]` for every rank and content. -/
theorem relevance_score_bounds (result : SearchResult) :
    0 ≤ relevance_score result ∧ relevance_score result ≤ 1 := by
  have h0 : (0 : ℚ) ≤ max 0 (1 - ((result.rank : ℚ) - 1) * (1 / 10)) := le_max_left 0 _
  simp only [relevance_score]
  exact unitIntervalMin _ (by split_ifs <;> linarith)

/-- The quality score is clamped into `[0,1]`. -/
theorem quality_score_bounds (result : SearchResult) (domain_info : Option DomainInfo) :
    0 ≤ quality_score result domain_info ∧ quality_score result domain_info ≤ 1 := by
  simp only [quality_score]
  exact ⟨le_min (by norm_num) (le_max_left _ _), min_le_left _ _⟩

/-- C2: every score returned by `_calculate_confidence_score`,
`_calculate_relevance_score` and `_calculate_quality_score` lies in
`[0, 1]` for all inputs — any signal sets and page, any integer rank, any
strings and response time. -/
theorem claim_C2_scores_unit_interval :
    (∀ (emails contact_pages : List (List Char))
        (social_links : List (List Char × List Char)) (phone_numbers : List (List Char))
        (page_content : Option PageContent),
        0 ≤ calculate_confidence_score emails contact_pages social_links phone_numbers
            page_content ∧
          calculate_confidence_score emails contact_pages social_links phone_numbers
            page_content ≤ 1) ∧
      (∀ result : SearchResult, 0 ≤ relevance_score result ∧ relevance_score result ≤ 1) ∧
      ∀ (result : SearchResult) (domain_info : Option DomainInfo),
        0 ≤ quality_score result domain_info ∧ quality_score result domain_info ≤ 1 :=
  ⟨confidence_score_bounds, relevance_score_bounds, quality_score_bounds⟩

/-- C1: `parse_search_result` never returns a parsed result: the
`ParsedResult(...)` construction uses the keyword `result_metadata` while
the dataclass field is named `metadata`, so every call raises `TypeError`,
which the handler turns into `None`. -/
theorem claim_C1_parse_search_result_none :
    ∀ result : SearchResult, parse_search_result result = none := by
  intro result
  have h : kwargsAccepted = false := by decide
  simp [parse_search_result, h]

/-- C5: `extract_contacts_from_page` on an absent page or a page with empty
markup returns the empty `ContactSignals`: all collections empty, confidence
`0.0`, extraction method `"empty_page"` (and, being a total function, it
never raises). -/
theorem claim_C5_empty_page :
    ∀ (urljoin : List Char → List Char → List Char) (page : Option PageContent),
      (page = none ∨ ∃ p, page = some p ∧ p.html = []) →
        extract_contacts_from_page urljoin page =
          { emails := [], contact_pages := [], social_links := [], phone_numbers := [],
            addresses := [], confidence_score := 0,
            extraction_method := strL r"empty_page", source_urls := [] } := by
  intro urljoin page h
  rcases h with h | ⟨p, rfl, hp⟩
  · subst h; rfl
  · simp [extract_contacts_from_page, hp, emptyContactInfo]

/-- Witness for C5: the theorem applied to the absent page. -/
theorem claim_C5_witness :
    extract_contacts_from_page exJoin none =
      { emails := [], contact_pages := [], social_links := [], phone_numbers := [],
        addresses := [], confidence_score := 0,
        extraction_method := strL r"empty_page", source_urls := [] } :=
  claim_C5_empty_page exJoin none (Or.inl rfl)

/-- C6: on text containing the two candidate addresses, the role account
`noreply@example.org` is rejected by the spam filter and only
`info@example.org` survives validation. -/
theorem claim_C6_email_filtering :
    extract_emails (strL r"Contact: info@example.org and noreply@example.org") [] =
      [strL r"info@example.org"] := by decide

/-- C9: sorting by the `"rank"` key returns a permutation of the input whose
rank values are in non-decreasing order, for every input list. -/
theorem claim_C9_sort_by_rank :
    ∀ results : List ParsedResult,
      (sort_results results (strL r"rank")).Perm results ∧
        List.Pairwise (fun a b => a.rank ≤ b.rank) (sort_results results (strL r"rank")) := by
  intro results
  have hkey : sort_results results (strL r"rank") =
      results.mergeSort (fun x y => decide (x.rank ≤ y.rank)) := by
    unfold sort_results
    rw [if_neg (by decide), if_neg (by decide), if_pos rfl]
  have htrans : ∀ a b c : ParsedResult,
      decide (a.rank ≤ b.rank) = true → decide (b.rank ≤ c.rank) = true →
        decide (a.rank ≤ c.rank) = true := by
    intro a b c hab hbc
    simp only [decide_eq_true_eq] at hab hbc ⊢
    exact le_trans hab hbc
  have htotal : ∀ a b : ParsedResult,
      (decide (a.rank ≤ b.rank) || decide (b.rank ≤ a.rank)) = true := by
    intro a b
    simp only [Bool.or_eq_true, decide_eq_true_eq]
    exact le_total a.rank b.rank
  refine ⟨hkey ▸ List.mergeSort_perm results _, hkey ▸ ?_⟩
  have hs := List.sorted_mergeSort htrans htotal results
  exact hs.imp (fun h => by simpa using h)

/-- C10: an empty domain string yields the empty `domain_info` mapping (no
fields, no exception), and quality scoring then falls back to the
`"medium"` tier, adding its `0.1` bonus on top of the `0.5` base. -/
theorem claim_C10_empty_domain_info :
    analyze_domain [] = none ∧
      ∀ result : SearchResult,
        quality_score result none =
          min 1 (max 0 ((1 / 2 + 1 / 10 : ℚ) +
            (if result.response_time < 2 then 1 / 10
             else if 5 < result.response_time then -(1 / 10) else 0) +
            (if ¬ result.title.isEmpty ∧ 10 < result.title.length then (1 / 10 : ℚ) else 0) +
            (if ¬ result.snippet.isEmpty ∧ 30 < result.snippet.length then (1 / 10 : ℚ)
             else 0))) := by
  refine ⟨rfl, ?_⟩
  intro result
  have hneq : strL r"medium" ≠ strL r"high" := by decide
  simp only [quality_score, domainInfoQuality]
  rw [if_neg hneq]
  simp only [if_true]
  split_ifs <;> norm_num

/-- Looking up after a dict assignment: the assigned key answers the new
value, every other key is unchanged. -/
theorem dictLookup_dictSet {β : Type} (d : List (List Char × β)) (k : List Char)
    (v : β) (k2 : List Char) :
    dictLookup (dictSet d k v) k2 = if k2 = k then some v else dictLookup d k2 := by
  induction d with
  | nil =>
    by_cases h : k2 = k
    · subst h; simp [dictSet, dictLookup, List.find?]
    · have hs : ¬ (k = k2) := fun hh => h hh.symm
      simp [dictSet, dictLookup, List.find?, h, hs]
  | cons kv rest ih =>
    by_cases hk : kv.1 = k
    · simp only [dictSet, if_pos hk]
      by_cases h : k2 = k
      · subst h; simp [dictLookup, List.find?]
      · have hs : ¬ (k = k2) := fun hh => h hh.symm
        have hkv : ¬ (kv.1 = k2) := fun hh => hs (hk.symm.trans hh)
        simp [dictLookup, List.find?, h, hs, hkv]
    · simp only [dictSet, if_neg hk]
      by_cases hkv2 : kv.1 = k2
      · have hks : ¬ (k2 = k) := fun hh => hk (hkv2.trans hh)
        simp [dictLookup, List.find?, hkv2, hks]
      · have l1 : dictLookup (kv :: dictSet rest k v) k2 = dictLookup (dictSet rest k v) k2 := by
          simp [dictLookup, List.find?, hkv2]
        rw [l1, ih]
        by_cases h : k2 = k
        · simp [h]
        · simp [h, dictLookup, List.find?, hkv2]

/-- Folding `socialStep` over anchors: each platform's entry is the href of
the last anchor assigned to it, falling back to the initial dict. -/
theorem socialStep_foldl_lookup (platform : List Char) :
    ∀ (anchors : List Anchor) (d : List (List Char × List Char)),
      dictLookup (anchors.foldl socialStep d) platform =
        match lastAssignedHref platform anchors with
        | some h => some h
        | none => dictLookup d platform := by
  intro anchors
  induction anchors with
  | nil => intro d; simp [lastAssignedHref]
  | cons a rest ih =>
    intro d
    simp only [List.foldl_cons]
    rw [ih]
    cases hfp : social_patterns.find? (fun pp => reMatchStart pp.2 a.href) with
    | none =>
      have hap : anchorPlatform a = none := by simp [anchorPlatform, hfp]
      have hstep : socialStep d a = d := by simp [socialStep, hfp]
      rw [hstep]
      simp only [lastAssignedHref, hap]
      cases lastAssignedHref platform rest <;> simp
    | some pp =>
      have hap : anchorPlatform a = some pp.1 := by simp [anchorPlatform, hfp]
      have hstep : socialStep d a = dictSet d pp.1 a.href := by simp [socialStep, hfp]
      rw [hstep]
      simp only [lastAssignedHref, hap]
      cases lastAssignedHref platform rest with
      | some h => simp
      | none =>
        simp only [dictLookup_dictSet]
        by_cases hpq : platform = pp.1
        · simp [hpq]
        · have hqp : ¬ (pp.1 = platform) := fun hh => hpq hh.symm
          simp [hpq, hqp]

/-- C3 counterexample: two anchors whose hrefs both match the github pattern;
the extractor keeps the URL of the *second* anchor, not the first. -/
theorem claim_C3_counterexample :
    anchorPlatform ghAnchorA = some (strL r"github") ∧
      anchorPlatform ghAnchorB = some (strL r"github") ∧
      dictLookup (extract_social_links [ghAnchorA, ghAnchorB]) (strL r"github") =
        some ghAnchorB.href ∧
      ghAnchorB.href ≠ ghAnchorA.href := by decide

/-- C3 amended: when several anchors' hrefs match the same platform's
pattern, `_extract_social_links` keeps the URL of the *last* anchor assigned
to that platform (anchor iteration order; each anchor is assigned to the
first platform in dict order whose pattern matches its href). -/
theorem claim_C3_last_anchor_wins :
    ∀ (anchors : List Anchor) (platform : List Char),
      dictLookup (extract_social_links anchors) platform =
        lastAssignedHref platform anchors := by
  intro anchors platform
  unfold extract_social_links
  rw [socialStep_foldl_lookup platform anchors []]
  cases lastAssignedHref platform anchors <;> simp [dictLookup, List.find?]

/-- The deduplication loop only ever drops elements, preserving relative
order. -/
theorem dedupGo_sublist :
    ∀ (rs : List ParsedResult) (su st : List (List Char)),
      (dedupGo su st rs).Sublist rs := by
  intro rs
  induction rs with
  | nil => intro su st; simp [dedupGo]
  | cons r rest ih =>
    intro su st
    simp only [dedupGo]
    split_ifs with h1 h2
    · exact (ih su st).cons r
    · exact (ih su st).cons r
    · exact (ih (su ++ [r.url]) (st ++ [title_key r])).cons₂ r

/-- Every retained result avoids the incoming seen-sets, and the retained
results are pairwise distinct in both url and title key. -/
theorem dedupGo_fresh :
    ∀ (rs : List ParsedResult) (su st : List (List Char)),
      (∀ q ∈ dedupGo su st rs, q.url ∉ su ∧ title_key q ∉ st) ∧
        List.Pairwise (fun a b => a.url ≠ b.url ∧ title_key a ≠ title_key b)
          (dedupGo su st rs) := by
  intro rs
  induction rs with
  | nil =>
    intro su st
    refine ⟨?_, by simp [dedupGo]⟩
    intro q hq
    simp [dedupGo] at hq
  | cons r rest ih =>
    intro su st
    simp only [dedupGo]
    split_ifs with h1 h2
    · exact ih su st
    · exact ih su st
    · obtain ⟨ihf, ihp⟩ := ih (su ++ [r.url]) (st ++ [title_key r])
      constructor
      · intro q hq
        rcases List.mem_cons.mp hq with rfl | hq2
        · exact ⟨h1, h2⟩
        · have hf := ihf q hq2
          exact ⟨fun hm => hf.1 (List.mem_append_left _ hm),
            fun hm => hf.2 (List.mem_append_left _ hm)⟩
      · refine List.Pairwise.cons ?_ ihp
        intro b hb
        have hf := ihf b hb
        refine ⟨fun he => hf.1 ?_, fun he => hf.2 ?_⟩
        · exact List.mem_append_right su (List.mem_singleton.mpr he.symm)
        · exact List.mem_append_right st (List.mem_singleton.mpr he.symm)

/-- The seen-sets of `dedupGo` are exactly the urls and title keys of the
retained earlier items: running it with the seen-sets of a `kept` list
agrees with the reference procedure `dedupEarlierKept kept`. -/
theorem dedupGo_eq_earlierKept :
    ∀ (rs : List ParsedResult) (kept : List ParsedResult),
      dedupGo (kept.map (fun q => q.url)) (kept.map title_key) rs =
        dedupEarlierKept kept rs := by
  intro rs
  induction rs with
  | nil => intro kept; rfl
  | cons r rest ih =>
    intro kept
    simp only [dedupGo, dedupEarlierKept]
    by_cases h1 : r.url ∈ kept.map (fun q => q.url)
    · have hany : (kept.any (fun q => q.url = r.url || title_key q = title_key r)) = true := by
        rcases List.mem_map.mp h1 with ⟨q, hq, hqe⟩
        exact List.any_eq_true.mpr ⟨q, hq, by simp [hqe]⟩
      rw [if_pos h1, if_pos hany]
      exact ih kept
    · by_cases h2 : title_key r ∈ kept.map title_key
      · have hany : (kept.any (fun q => q.url = r.url || title_key q = title_key r)) = true := by
          rcases List.mem_map.mp h2 with ⟨q, hq, hqe⟩
          exact List.any_eq_true.mpr ⟨q, hq, by simp [hqe]⟩
        rw [if_neg h1, if_pos hany]
        simp only [if_pos h2]
        exact ih kept
      · have hnotany :
            ¬ ((kept.any (fun q => q.url = r.url || title_key q = title_key r)) = true) := by
          intro hA
          rcases List.any_eq_true.mp hA with ⟨q, hq, hqc⟩
          have hqd : q.url = r.url ∨ title_key q = title_key r := by simpa using hqc
          rcases hqd with hc | hc
          · exact h1 (List.mem_map.mpr ⟨q, hq, hc⟩)
          · exact h2 (List.mem_map.mpr ⟨q, hq, hc⟩)
        rw [if_neg h1, if_neg hnotany]
        simp only [if_neg h2]
        have hu : kept.map (fun q => q.url) ++ [r.url] =
            (kept ++ [r]).map (fun q => q.url) := by simp
        have htk : kept.map title_key ++ [title_key r] = (kept ++ [r]).map title_key := by
          simp
        rw [hu, htk, ih (kept ++ [r])]

/-- An occurrence preceded by no conflicting input item at all — in
particular the first occurrence of each url and of each title key — is
always retained, provided the incoming seen-sets do not already block it. -/
theorem dedupGo_first_occurrence :
    ∀ (l1 : List ParsedResult) (x : ParsedResult) (l2 : List ParsedResult)
      (su st : List (List Char)),
      (∀ q ∈ l1, q.url ≠ x.url ∧ title_key q ≠ title_key x) →
        x.url ∉ su → title_key x ∉ st →
          x ∈ dedupGo su st (l1 ++ x :: l2) := by
  intro l1
  induction l1 with
  | nil =>
    intro x l2 su st _ hu ht
    simp only [List.nil_append, dedupGo]
    rw [if_neg hu]
    rw [if_neg ht]
    exact List.mem_cons_self x _
  | cons r l1 ih =>
    intro x l2 su st hconf hu ht
    have hconf2 : ∀ q ∈ l1, q.url ≠ x.url ∧ title_key q ≠ title_key x :=
      fun q hq => hconf q (List.mem_cons_of_mem r hq)
    have hr := hconf r (List.mem_cons_self r _)
    simp only [List.cons_append, dedupGo]
    split_ifs with h1 h2
    · exact ih x l2 su st hconf2 hu ht
    · exact ih x l2 su st hconf2 hu ht
    · refine List.mem_cons_of_mem r (ih x l2 _ _ hconf2 ?_ ?_)
      · intro hm
        rcases List.mem_append.mp hm with hm | hm
        · exact hu hm
        · exact hr.1 (List.mem_singleton.mp hm).symm
      · intro hm
        rcases List.mem_append.mp hm with hm | hm
        · exact ht hm
        · exact hr.2 (List.mem_singleton.mp hm).symm

/-- C7 counterexample: in the chain `[prA, prB, prC]`, `prB` is dropped for
sharing `prA`'s url, but its title key is then never recorded, so `prC` —
whose title equals that of the earlier item `prB` — is retained.  The claim,
which removes every item matching any *earlier input item*, would return
`[prA]`; the code returns `[prA, prC]`. -/
theorem claim_C7_counterexample :
    deduplicate_results [prA, prB, prC] = [prA, prC] ∧
      deduplicate_results_claim [prA, prB, prC] = [prA] ∧
      prB.url = prA.url ∧ title_key prC = title_key prB ∧
      prC.url ≠ prA.url ∧ prC.url ≠ prB.url ∧
      deduplicate_results [prA, prB, prC] ≠
        deduplicate_results_claim [prA, prB, prC] := by decide

/-- C7 amended: `deduplicate_results` retains items in their original
relative order with pairwise distinct urls and title keys; it equals the
reference procedure that drops an item exactly when an *earlier retained*
item shares its url or normalized-lowercased title; an occurrence preceded
by no conflicting input item — in particular, the first occurrence of each
url and of each title key — is always retained; and of two concrete entries
with identical url but different rank, only the first-encountered one
survives. -/
theorem claim_C7_dedup_characterization :
    (∀ rs : List ParsedResult,
        (deduplicate_results rs).Sublist rs ∧
          List.Pairwise (fun a b => a.url ≠ b.url ∧ title_key a ≠ title_key b)
            (deduplicate_results rs) ∧
          deduplicate_results rs = dedupEarlierKept [] rs) ∧
      (∀ (l1 : List ParsedResult) (x : ParsedResult) (l2 : List ParsedResult),
          (∀ q ∈ l1, q.url ≠ x.url ∧ title_key q ≠ title_key x) →
            x ∈ deduplicate_results (l1 ++ x :: l2)) ∧
      deduplicate_results [prA, prB] = [prA] ∧
      prB.url = prA.url ∧ prB.rank ≠ prA.rank := by
  refine ⟨?_, ?_, by decide, by decide, by decide⟩
  · intro rs
    exact ⟨dedupGo_sublist rs [] [], (dedupGo_fresh rs [] []).2,
      dedupGo_eq_earlierKept rs []⟩
  · intro l1 x l2 hconf
    exact dedupGo_first_occurrence l1 x l2 [] [] hconf (List.not_mem_nil _)
      (List.not_mem_nil _)

/-- Witness for C7: the first-occurrence part applied concretely — `prC`,
whose url and title key differ from those of the earlier `prA`, is
retained. -/
theorem claim_C7_witness :
    prC ∈ deduplicate_results [prA, prC] :=
  claim_C7_dedup_characterization.2.1 [prA] prC [] (by decide)

/-- Membership after the set-building fold: an element is in the built set
iff it was in the initial set or in the inserted list. -/
theorem mem_foldl_setInsert :
    ∀ (l : List (List Char)) (acc : List (List Char)) (x : List Char),
      x ∈ l.foldl setInsert acc ↔ x ∈ acc ∨ x ∈ l := by
  intro l
  induction l with
  | nil => intro acc x; simp
  | cons a rest ih =>
    intro acc x
    simp only [List.foldl_cons]
    rw [ih]
    unfold setInsert
    by_cases h : a ∈ acc
    · rw [if_pos h]
      constructor
      · rintro (hx | hx)
        · exact Or.inl hx
        · exact Or.inr (List.mem_cons_of_mem a hx)
      · rintro (hx | hx)
        · exact Or.inl hx
        · rcases List.mem_cons.mp hx with rfl | hx2
          · exact Or.inl h
          · exact Or.inr hx2
    · rw [if_neg h]
      simp only [List.mem_append, List.mem_singleton, List.mem_cons]
      tauto

/-- The cleaning fold keeps exactly the stripped forms of the candidates that
survive the 10-character digit test, in order. -/
theorem phoneCleanStep_foldl :
    ∀ (l : List (List Char)) (acc : List (List Char)),
      l.foldl phoneCleanStep acc =
        acc ++
          (l.filter (fun phone => 10 ≤ (phone.filter digitOrPlus).length)).map pythonStrip := by
  intro l
  induction l with
  | nil => intro acc; simp
  | cons p rest ih =>
    intro acc
    simp only [List.foldl_cons, List.filter_cons]
    by_cases h : 10 ≤ (p.filter digitOrPlus).length
    · have hstep : phoneCleanStep acc p = acc ++ [pythonStrip p] := by
        simp [phoneCleanStep, h]
      rw [hstep, ih]
      simp [h, List.append_assoc]
    · have hstep : phoneCleanStep acc p = acc := by simp [phoneCleanStep, h]
      rw [hstep, ih]
      simp [h]

/-- Membership characterization of `_extract_phone_numbers`. -/
theorem mem_extract_phone_numbers (text : List Char) (x : List Char) :
    x ∈ extract_phone_numbers text ↔
      ∃ m ∈ phone_candidates text,
        10 ≤ (m.filter digitOrPlus).length ∧ x = pythonStrip m := by
  unfold extract_phone_numbers
  rw [mem_foldl_setInsert, phoneCleanStep_foldl]
  simp only [List.nil_append, List.mem_map, List.mem_filter, decide_eq_true_eq,
    List.not_mem_nil, false_or]
  constructor
  · rintro ⟨m, ⟨hm, h10⟩, rfl⟩
    exact ⟨m, hm, h10, rfl⟩
  · rintro ⟨m, hm, h10, rfl⟩
    exact ⟨m, ⟨hm, h10⟩, rfl⟩

/-- C8: a regex phone candidate is accepted exactly when at least 10
characters survive stripping to digits and `+`; what is stored is the
(whitespace-trimmed) original match, not the stripped form; and on
`"Call 555-123-4567 or 123"` the result is exactly the match
`"555-123-4567"`, with nothing for `"123"`. -/
theorem claim_C8_phone_extraction :
    (∀ (text x : List Char), x ∈ extract_phone_numbers text →
        ∃ m ∈ phone_candidates text,
          10 ≤ (m.filter digitOrPlus).length ∧ x = pythonStrip m) ∧
      (∀ (text m : List Char), m ∈ phone_candidates text →
          10 ≤ (m.filter digitOrPlus).length →
            pythonStrip m ∈ extract_phone_numbers text) ∧
      extract_phone_numbers (strL r"Call 555-123-4567 or 123") =
        [strL r"555-123-4567"] := by
  refine ⟨?_, ?_, by decide⟩
  · intro text x hx
    exact (mem_extract_phone_numbers text x).mp hx
  · intro text m hm h10
    exact (mem_extract_phone_numbers text (pythonStrip m)).mpr ⟨m, hm, h10, rfl⟩

/-- Witness for C8: the acceptance direction applied to the concrete match
found in `"Call 555-123-4567 or 123"`. -/
theorem claim_C8_witness :
    pythonStrip (strL r"555-123-4567") ∈
      extract_phone_numbers (strL r"Call 555-123-4567 or 123") :=
  claim_C8_phone_extraction.2.1 (strL r"Call 555-123-4567 or 123")
    (strL r"555-123-4567") (by decide) (by decide)

/-- The URL loop of `extract_contacts_from_domain`: the processed URLs are
exactly those whose fetch returns status 200, appended in fetch order; the
accumulated confidence is the sum of their per-page confidences; the page
count is their number. -/
theorem domainStep_foldl (urljoin : List Char → List Char → List Char)
    (fetch : List Char → Option PageContent) :
    ∀ (urls : List (List Char)) (acc : DomainAcc),
      (urls.foldl (domainStep urljoin fetch) acc).source_urls =
          acc.source_urls ++ processedUrls fetch urls ∧
        (urls.foldl (domainStep urljoin fetch) acc).total_confidence =
          acc.total_confidence +
            ((processedUrls fetch urls).map (pageConfidence urljoin fetch)).sum ∧
        (urls.foldl (domainStep urljoin fetch) acc).pages_processed =
          acc.pages_processed + (processedUrls fetch urls).length := by
  intro urls
  induction urls with
  | nil => intro acc; simp [processedUrls]
  | cons u rest ih =>
    intro acc
    simp only [List.foldl_cons]
    cases hfu : fetch u with
    | none =>
      have hstep : domainStep urljoin fetch acc u = acc := by simp [domainStep, hfu]
      have hproc : processedUrls fetch (u :: rest) = processedUrls fetch rest := by
        simp [processedUrls, List.filter_cons, hfu]
      rw [hstep, hproc]
      exact ih acc
    | some p =>
      by_cases h200 : p.status_code = 200
      · have hproc : processedUrls fetch (u :: rest) = u :: processedUrls fetch rest := by
          simp [processedUrls, List.filter_cons, hfu, h200]
        have hconf : pageConfidence urljoin fetch u =
            (extract_contacts_from_page urljoin (some p)).confidence_score := by
          simp [pageConfidence, hfu]
        obtain ⟨h1, h2, h3⟩ := ih (domainStep urljoin fetch acc u)
        have hsrc : (domainStep urljoin fetch acc u).source_urls =
            acc.source_urls ++ [u] := by
          simp [domainStep, hfu, h200]
        have htot : (domainStep urljoin fetch acc u).total_confidence =
            acc.total_confidence +
              (extract_contacts_from_page urljoin (some p)).confidence_score := by
          simp [domainStep, hfu, h200]
        have hcnt : (domainStep urljoin fetch acc u).pages_processed =
            acc.pages_processed + 1 := by
          simp [domainStep, hfu, h200]
        refine ⟨?_, ?_, ?_⟩
        · rw [h1, hsrc, hproc]
          simp [List.append_assoc]
        · rw [h2, htot, hproc]
          simp only [List.map_cons, List.sum_cons, hconf]
          ring
        · rw [h3, hcnt, hproc]
          simp only [List.length_cons]
          omega
      · have hstep : domainStep urljoin fetch acc u = acc := by
          simp [domainStep, hfu, h200]
        have hproc : processedUrls fetch (u :: rest) = processedUrls fetch rest := by
          simp [processedUrls, List.filter_cons, hfu, h200]
        rw [hstep, hproc]
        exact ih acc

/-- C4 amended: a candidate URL is processed iff its fetch returns status
*exactly* 200 (not any 200-class status); the source URLs are exactly those
pages in fetch order, and the returned confidence is the arithmetic mean of
their per-page confidence scores (0 when none was processed). -/
theorem claim_C4_status_exactly_200 :
    ∀ (urljoin : List Char → List Char → List Char)
      (fetch : List Char → Option PageContent) (domain : List Char) (max_pages : Nat),
      (extract_contacts_from_domain urljoin fetch domain max_pages).source_urls =
          processedUrls fetch (candidate_urls urljoin domain max_pages) ∧
        (extract_contacts_from_domain urljoin fetch domain max_pages).confidence_score =
          (if processedUrls fetch (candidate_urls urljoin domain max_pages) = [] then 0
           else
            ((processedUrls fetch (candidate_urls urljoin domain max_pages)).map
                (pageConfidence urljoin fetch)).sum /
              ((processedUrls fetch (candidate_urls urljoin domain max_pages)).length : ℚ)) := by
  intro urljoin fetch domain max_pages
  obtain ⟨h1, h2, h3⟩ :=
    domainStep_foldl urljoin fetch (candidate_urls urljoin domain max_pages) initialDomainAcc
  constructor
  · simp only [extract_contacts_from_domain]
    rw [h1]
    simp [initialDomainAcc]
  · simp only [extract_contacts_from_domain]
    rw [h2, h3]
    simp only [initialDomainAcc, zero_add]
    cases hP : processedUrls fetch (candidate_urls urljoin domain max_pages) with
    | nil => simp
    | cons v vs => rw [if_pos (by simp), if_neg (by simp)]

/-- C4 counterexample: a fetch returning status 201 (a 200-class status) with
an extractable email; the page would yield signals on its own, yet the
domain extraction skips it entirely: no source URLs, no emails,
confidence 0. -/
theorem claim_C4_counterexample :
    (200 ≤ page201.status_code ∧ page201.status_code < 300) ∧
      (extract_contacts_from_page exJoin (some page201)).emails =
        [strL r"info@acme.org"] ∧
      (extract_contacts_from_domain exJoin fetch201 (strL r"acme.org") 1).source_urls = [] ∧
      (extract_contacts_from_domain exJoin fetch201 (strL r"acme.org") 1).emails = [] ∧
      (extract_contacts_from_domain exJoin fetch201 (strL r"acme.org") 1).confidence_score =
        0 := by decide

end HackvedaCrawler
